import Mathlib

/-
Shallow embedding of the deterministic compositing pipeline of
`multimodal-generation/repeatable-patterns/01-product-video-ad/01_product_ad_generation.ipynb`:
`split_video_to_frames`, `overlay_product_simple`, `create_video_with_overlay`,
the pipeline execution cell, and `convert_to_h264`.

Images are numpy `uint8` arrays, modelled as a shape plus a total pixel
function; the float blend is modelled exactly in `ℚ` with the final cast back
into the `uint8` array modelled as truncation toward zero.  File names are
modelled as their lists of characters, compared the way Python's `sorted`
compares strings (code-point lexicographic order).
-/

set_option maxHeartbeats 1000000

/-- Python exception kinds reachable from this pipeline.  The constructors
`dimensionMismatchError` and `encodingError` come from the specification's
error taxonomy; the notebook never defines or raises such classes. -/
inductive PyErr where
  | ioError
  | valueError
  | indexError
  | attributeError
  | dimensionMismatchError
  | encodingError
  deriving DecidableEq, Repr

/-- A raster image held in a numpy array: height, width, channel count, and the
stored 8-bit value at each (row, column, channel). -/
structure Img where
  H : Nat
  W : Nat
  C : Nat
  px : Nat → Nat → Nat → Nat

/-- Normalized opacity `a / 255.0` (source: `alpha = product_img[:, :, 3] / 255.0`). -/
def alphaN (a : Nat) : ℚ := (a : ℚ) / 255

/-- Exact per-channel value of the source line
`background[:, :, c] * (1 - alpha) + product_img[:, :, c] * alpha`. -/
def blendQ (bg fg a : Nat) : ℚ := (bg : ℚ) * (1 - alphaN a) + (fg : ℚ) * alphaN a

/-- Stored result of the blend: numpy assigns the float result back into the
`uint8` slice `background[:, :, c]`, truncating toward zero (for the
non-negative values arising here, this is the floor). -/
def blendVal (bg fg a : Nat) : Nat := (Int.floor (blendQ bg fg a)).toNat

/-- Model of `cv2.cvtColor(img, cv2.COLOR_BGR2BGRA)`: a fresh 4-channel array
whose new alpha channel is the fully opaque value 255. -/
def cvtColor_BGR2BGRA (img : Img) : Img :=
  { H := img.H, W := img.W, C := 4,
    px := fun y x c => if c < 3 then img.px y x c else 255 }

/-- Model of `cv2.cvtColor(img, cv2.COLOR_BGRA2BGR)`: drops the alpha channel. -/
def cvtColor_BGRA2BGR (img : Img) : Img :=
  { H := img.H, W := img.W, C := 3, px := img.px }

/-- Shape condition under which numpy accepts
`background[:, :, c] = background[:, :, c] * (1 - alpha) + product_img[:, :, c] * alpha`:
each product dimension must equal the background's or be 1 (broadcasting), and
the sum must be assignable back into the background slice, so the product can
never be the strictly larger side. -/
def bcastAssignOK (bH bW pH pW : Nat) : Bool :=
  (pH == bH || pH == 1) && (pW == bW || pW == 1)

/-- Source index of the product used for output position `y` under numpy
broadcasting: a length-1 axis is repeated. -/
def bidx (pDim : Nat) (y : Nat) : Nat := if pDim = 1 then 0 else y

/-- The channel loop of `overlay_product_simple`, as a value: channels 0, 1, 2
of the (already 4-channel) background are overwritten with the blended values;
any further channel — the background's own alpha — is left as it was. -/
def blendImg (bg1 p : Img) : Img :=
  { H := bg1.H, W := bg1.W, C := bg1.C,
    px := fun y x c =>
      if c < 3 then
        blendVal (bg1.px y x c) (p.px (bidx p.H y) (bidx p.W x) c)
          (p.px (bidx p.H y) (bidx p.W x) 3)
      else bg1.px y x c }

/-- Model of `overlay_product_simple(background, product_img)` with the
caller-visible effect made explicit.  On success it returns
`(returned, backgroundAfter)`, where `backgroundAfter` is what the caller's
`background` array holds after the call: a 3-channel background is first copied
into a fresh BGRA array by `cv2.cvtColor`, so the caller's array is untouched;
a background that already has 4 channels is mutated in place by the numpy slice
assignments and that same array is the returned value.  Failure cases, in the
order Python reaches them: a product with fewer than 4 channels makes
`product_img[:, :, 3]` raise `IndexError` (before any mutation); shapes that do
not broadcast make the blend raise `ValueError` (also before any assignment
succeeds). -/
def overlay_product_simple (background product_img : Img) :
    Except PyErr (Img × Img) :=
  if product_img.C < 4 then .error .indexError
  else
    let bg1 := if background.C = 3 then cvtColor_BGR2BGRA background else background
    if bcastAssignOK bg1.H bg1.W product_img.H product_img.W then
      let res := blendImg bg1 product_img
      .ok (res, if background.C = 3 then background else res)
    else .error .valueError

/-- A video as seen through `cv2.VideoCapture`: whether the capture opens, and
the frames successive `cap.read()` calls yield in presentation order. -/
structure Video where
  opened : Bool
  frames : List Img

/-- File names are modelled as their lists of characters (Python strings are
sequences of code points). -/
abbrev Name := List Char

/-- Decimal digit characters of `n`, most significant first (empty for 0). -/
def decChars (n : Nat) : List Char := ((Nat.digits 10 n).map Nat.digitChar).reverse

/-- Python's format spec `04d` as used in `f'frame_{frame_count:04d}.jpg'`: the
decimal representation left-padded with `'0'` to a minimum width of 4 (for 0,
the representation `'0'` padded to `"0000"`, which the empty digit list also
yields). -/
def fmt04 (n : Nat) : List Char :=
  List.replicate (4 - (decChars n).length) '0' ++ decChars n

/-- The frame file name `f'frame_{frame_count:04d}.jpg'`. -/
def frameName (i : Nat) : Name := "frame_".data ++ fmt04 i ++ ".jpg".data

/-- The body of the `while cap.isOpened()` loop of `split_video_to_frames`:
each decoded frame is written to `frame_{k:04d}.jpg` and the counter advances.
Returns the list of (name, frame) writes and the final counter. -/
def splitGo : List Img → Nat → List (Name × Img) × Nat
  | [], k => ([], k)
  | f :: rest, k =>
    let r := splitGo rest (k + 1)
    ((frameName k, f) :: r.1, r.2)

/-- Model of `split_video_to_frames(video_path, output_folder)`: create the
folder, write one jpg per decoded frame, return the frame count.  The body can
raise nothing: an unopenable capture skips the loop (`cap.isOpened()` is false)
and an exhausted capture ends it (`ret` is false), so the result is always
`ok`; the `Except` is kept so that the absence of an exception is part of the
statement. -/
def split_video_to_frames (v : Video) : Except PyErr (List (Name × Img) × Nat) :=
  if v.opened then .ok (splitGo v.frames 0) else .ok ([], 0)

/-- Python string `<` on code points, on character-list names. -/
def lexLt : Name → Name → Bool
  | [], [] => false
  | [], _ :: _ => true
  | _ :: _, [] => false
  | a :: as, b :: bs => if a < b then true else if b < a then false else lexLt as bs

/-- The total order by which Python's `sorted` arranges strings. -/
def lexLe (s t : Name) : Bool := !lexLt t s

/-- Model of `sorted(os.listdir(frames_folder))` applied to a listing. -/
def sortNames (l : List Name) : List Name := l.mergeSort lexLe

/-- Python's `frame_file.endswith(('.jpg', '.png'))`. -/
def isFrameFile (n : Name) : Bool :=
  ".jpg".data.isSuffixOf n || ".png".data.isSuffixOf n

/-- Reading a file of the frames folder with `cv2.imread`: `none` models a file
that cannot be decoded as an image (`imread` returns `None`). -/
def readDir (dir : List (Name × Option Img)) (n : Name) : Option Img :=
  match dir.lookup n with
  | some c => c
  | none => none

/-- Model of `cv2.VideoWriter.write`: a frame whose size differs from the
writer's, or that is not 3-channel, is silently dropped; otherwise it is
appended to the output stream. -/
def writerWrite (H W : Nat) (outAcc : List Img) (f : Img) : List Img :=
  if f.H = H ∧ f.W = W ∧ f.C = 3 then outAcc ++ [f] else outAcc

/-- The per-file loop of `create_video_with_overlay`, over the lexically sorted
listing: names not ending in `.jpg`/`.png` are skipped; an unreadable file
makes `overlay_product_simple(None, product)` evaluate `None.shape`, raising
`AttributeError`; an overlay exception propagates; otherwise the result is
converted back to BGR when 4-channel and handed to the writer. -/
def overlayLoop (dir : List (Name × Option Img)) (p : Img) (H W : Nat) :
    List Name → List Img → Except PyErr (List Img)
  | [], acc => .ok acc
  | n :: rest, acc =>
    if isFrameFile n then
      match readDir dir n with
      | none => .error .attributeError
      | some f =>
        match overlay_product_simple f p with
        | .error e => .error e
        | .ok (res, _) =>
          let res3 := if res.C = 4 then cvtColor_BGRA2BGR res else res
          overlayLoop dir p H W rest (writerWrite H W acc res3)
    else overlayLoop dir p H W rest acc

/-- Model of `create_video_with_overlay(frames_folder, product_path, output_path)`.
The product argument is the result of `cv2.imread(product_path, IMREAD_UNCHANGED)`
(`none` when unreadable, raising `ValueError("Could not load product image")`).
The first entry of the sorted listing fixes the writer size: an empty folder
raises `IndexError` at `sorted(os.listdir(...))[0]`, and an unreadable first
frame raises `AttributeError` at `first_frame.shape[:2]`.  On success the value
is the sequence of frames the writer wrote. -/
def create_video_with_overlay (dir : List (Name × Option Img))
    (product : Option Img) : Except PyErr (List Img) :=
  match product with
  | none => .error .valueError
  | some p =>
    match sortNames (dir.map Prod.fst) with
    | [] => .error .indexError
    | n0 :: rest =>
      match readDir dir n0 with
      | none => .error .attributeError
      | some f0 => overlayLoop dir p f0.H f0.W (n0 :: rest) []

/-- State of the intermediate folder `videos/temp_frames`. -/
structure DirState where
  present : Bool
  files : List (Name × Option Img)

/-- Model of the notebook's pipeline execution cell: split the video into
frames, overlay and reassemble, then delete every file of the temp folder and
`os.rmdir` it.  The cleanup statements are written after the two calls with no
`try/finally`, so they run only when both calls return; an exception leaves the
folder and all frame files on disk.  The result pairs the cell's outcome (or
the propagated exception) with the final state of the temp folder. -/
def pipelineCell (v : Video) (product : Option Img) :
    Except PyErr (List Img) × DirState :=
  match split_video_to_frames v with
  | .error e => (.error e, { present := true, files := [] })
  | .ok (writes, _count) =>
    let dirAfter : DirState :=
      { present := true, files := writes.map (fun w => (w.1, some w.2)) }
    match create_video_with_overlay dirAfter.files product with
    | .error e => (.error e, dirAfter)
    | .ok out => (.ok out, { present := false, files := [] })

/-- The inputs and environment of `convert_to_h264` abstracted to its two
failure points: whether `VideoFileClip(input_file)` can read the input and
whether `clip.write_videofile(...)` succeeds. -/
structure TranscodeEnv where
  readable : Bool
  writeOk : Bool
  deriving DecidableEq, Repr

/-- Model of `convert_to_h264(input_file, output_file)` together with the
number of open clip readers left behind.  `VideoFileClip` acquires the reader
resource; `clip.close()` releases it, but the close is the plain third
statement of the body — there is no `try/finally` — so when `write_videofile`
raises, the reader stays open while the exception propagates. -/
def convert_to_h264 (env : TranscodeEnv) : Except PyErr Unit × Nat :=
  if env.readable = false then (.error .ioError, 0)
  else if env.writeOk = false then (.error .ioError, 1)
  else (.ok (), 0)

/-- The writes of `split_video_to_frames` (empty when the capture cannot open). -/
def splitWrites (v : Video) : List (Name × Img) :=
  if v.opened then (splitGo v.frames 0).1 else []

/-- The frame count returned by `split_video_to_frames`. -/
def splitCount (v : Video) : Nat :=
  if v.opened then (splitGo v.frames 0).2 else 0

/-- The composited BGR frame the assembler writes for an extracted 3-channel
frame `f`: overlay (which converts `f` to BGRA and blends) followed by the
caller's BGRA→BGR conversion. -/
def compositeBGR (f p : Img) : Img :=
  cvtColor_BGRA2BGR (blendImg (cvtColor_BGR2BGRA f) p)

/-- The frames directory produced by extracting `N` frames: file `frameName i`
holds the image `files i`. -/
def extractedDir (files : Nat → Img) (N : Nat) : List (Name × Option Img) :=
  (List.range N).map (fun i => (frameName i, some (files i)))

/-- Channel count of an overlay result (0 for an exception). -/
def okResultC (r : Except PyErr (Img × Img)) : Nat :=
  match r with
  | .ok pr => pr.1.C
  | .error _ => 0

/-- A pixel of an overlay result (0 for an exception). -/
def okResultPx (r : Except PyErr (Img × Img)) (y x c : Nat) : Nat :=
  match r with
  | .ok pr => pr.1.px y x c
  | .error _ => 0

/-- The exception kind of a result (`none` when no exception was raised). -/
def errOf {α : Type} (r : Except PyErr α) : Option PyErr :=
  match r with
  | .error e => some e
  | .ok _ => none

/-- Fixture: a 2×2 3-channel background with constant value 100. -/
def exBg3 : Img := ⟨2, 2, 3, fun _ _ _ => 100⟩

/-- Fixture: a 1×1 4-channel background. -/
def exBg4 : Img := ⟨1, 1, 4, fun _ _ c => if c = 3 then 200 else 100⟩

/-- Fixture: a 1×2 4-channel product; its height mismatches `exBg3` but numpy
broadcasting accepts the pair. -/
def exProdRow : Img := ⟨1, 2, 4, fun _ _ c => if c = 3 then 255 else 20⟩

/-- Fixture: a 3×3 4-channel product, not broadcastable against `exBg3`. -/
def exProd33 : Img := ⟨3, 3, 4, fun _ _ c => if c = 3 then 255 else 20⟩

/-- Fixture: a 1×1 3-channel frame. -/
def exFrame : Img := ⟨1, 1, 3, fun _ _ _ => 50⟩

/-- Fixture: a 1×1 4-channel product with full opacity. -/
def exProd1 : Img := ⟨1, 1, 4, fun _ _ c => if c = 3 then 255 else 20⟩

/-- Fixture: a one-frame video. -/
def exVideo : Video := ⟨true, [exFrame]⟩

/-! ## Helper lemmas -/

theorem blendQ_nonneg (bg fg a : Nat) (ha : a ≤ 255) : 0 ≤ blendQ bg fg a := by
  unfold blendQ alphaN
  have h1 : (a : ℚ) ≤ 255 := by exact_mod_cast ha
  have h3 : 0 ≤ 1 - (a : ℚ) / 255 := by linarith
  have h4 : 0 ≤ (a : ℚ) / 255 := by positivity
  have h5 : (0 : ℚ) ≤ (bg : ℚ) := by positivity
  have h6 : (0 : ℚ) ≤ (fg : ℚ) := by positivity
  exact add_nonneg (mul_nonneg h5 h3) (mul_nonneg h6 h4)

theorem blendVal_close (bg fg a : Nat) (ha : a ≤ 255) :
    |(blendVal bg fg a : ℚ) - blendQ bg fg a| ≤ 1 := by
  have h0 := blendQ_nonneg bg fg a ha
  have hfl : (0 : ℤ) ≤ ⌊blendQ bg fg a⌋ := Int.le_floor.mpr (by exact_mod_cast h0)
  have h1 : ((blendVal bg fg a : Nat) : ℚ) = ((⌊blendQ bg fg a⌋ : ℤ) : ℚ) := by
    unfold blendVal
    exact_mod_cast congrArg (fun z : ℤ => (z : ℚ)) (Int.toNat_of_nonneg hfl)
  rw [h1, abs_sub_comm, Int.self_sub_floor]
  rw [abs_of_nonneg (Int.fract_nonneg _)]
  exact le_of_lt (Int.fract_lt_one _)

theorem bidx_eq (d y : Nat) (h : y < d) : bidx d y = y := by
  unfold bidx; split <;> omega

theorem overlay_eval (bg p : Img) (hp : ¬ p.C < 4) :
    overlay_product_simple bg p =
      (if bcastAssignOK bg.H bg.W p.H p.W
       then .ok (blendImg (if bg.C = 3 then cvtColor_BGR2BGRA bg else bg) p,
                 if bg.C = 3 then bg
                 else blendImg (if bg.C = 3 then cvtColor_BGR2BGRA bg else bg) p)
       else .error .valueError) := by
  unfold overlay_product_simple
  rw [if_neg hp]
  by_cases hc3 : bg.C = 3 <;> simp [hc3, cvtColor_BGR2BGRA]

theorem splitGo_eq (l : List Img) (k : Nat) :
    splitGo l k =
      ((List.enumFrom k l).map (fun pr => (frameName pr.1, pr.2)), k + l.length) := by
  induction l generalizing k with
  | nil => simp [splitGo]
  | cons f rest ih =>
    simp [splitGo, ih (k + 1)]
    omega

theorem split_eq_ok (v : Video) :
    split_video_to_frames v = .ok (splitWrites v, splitCount v) := by
  unfold split_video_to_frames splitWrites splitCount
  cases hv : v.opened <;> simp

/-! ## Claim C1 -/

/-- C1: for every background frame and product image of equal dimensions, each
color channel of the Alpha Compositor's output pixel equals
`background * (1 - a) + product * a` with `a` the product's alpha normalized to
0.0–1.0, within a rounding tolerance of ±1 on the 8-bit channel. -/
theorem overlay_blend_within_one (bg p : Img) (h3 : bg.C = 3) (hp4 : p.C = 4)
    (hH : bg.H = p.H) (hW : bg.W = p.W) :
    ∃ r post, overlay_product_simple bg p = .ok (r, post) ∧
      ∀ y x c, y < bg.H → x < bg.W → c < 3 → p.px y x 3 ≤ 255 →
        |(r.px y x c : ℚ) - blendQ (bg.px y x c) (p.px y x c) (p.px y x 3)| ≤ 1 := by
  refine ⟨blendImg (cvtColor_BGR2BGRA bg) p, bg, ?_, ?_⟩
  · unfold overlay_product_simple
    simp [hp4, h3, bcastAssignOK, cvtColor_BGR2BGRA, hH, hW]
  · intro y x c hy hx hc ha
    have hby : bidx p.H y = y := bidx_eq p.H y (hH ▸ hy)
    have hbx : bidx p.W x = x := bidx_eq p.W x (hW ▸ hx)
    show |((blendImg (cvtColor_BGR2BGRA bg) p).px y x c : ℚ) - _| ≤ 1
    unfold blendImg cvtColor_BGR2BGRA
    simp only [hc, if_pos, hby, hbx]
    exact blendVal_close (bg.px y x c) (p.px y x c) (p.px y x 3) ha

/-- C1 witness: the guarantee at a concrete 1×1 frame and product. -/
theorem overlay_blend_within_one_wit :
    ∃ r post, overlay_product_simple exFrame exProd1 = .ok (r, post) ∧
      ∀ y x c, y < exFrame.H → x < exFrame.W → c < 3 → exProd1.px y x 3 ≤ 255 →
        |(r.px y x c : ℚ) -
          blendQ (exFrame.px y x c) (exProd1.px y x c) (exProd1.px y x 3)| ≤ 1 :=
  overlay_blend_within_one exFrame exProd1 rfl rfl rfl rfl

/-! ## Claim C2 -/

/-- C2 counterexample: a run in which the Frame Assembler raises `ValueError`
(the product image cannot be loaded) ends with the intermediate frame
directory still present, contradicting the claim that after any run the
directory does not exist. -/
theorem pipeline_cleanup_cex :
    (pipelineCell exVideo none).1 = .error PyErr.valueError ∧
    (pipelineCell exVideo none).2.present = true :=
  ⟨rfl, rfl⟩

/-- C2 amended: the pipeline cell removes the intermediate frame directory and
its files only when every stage succeeds; when any stage raises, the exception
propagates with the directory and every extracted frame file left in place
(the cleanup statements follow the stage calls with no `try/finally`). -/
theorem pipeline_cleanup_only_on_success (v : Video) (product : Option Img) :
    (pipelineCell v product).2 =
      if (pipelineCell v product).1.isOk = true
      then { present := false, files := [] }
      else { present := true,
             files := (splitWrites v).map (fun w => (w.1, some w.2)) } := by
  unfold pipelineCell
  rw [split_eq_ok]
  cases h : create_video_with_overlay
      ((splitWrites v).map (fun w => (w.1, some w.2))) product <;>
    simp [h, Except.isOk, Except.toBool]

/-! ## Claim C3 -/

/-- C3 counterexample: `exBg3` (2×2) and `exProdRow` (1×2) have different
heights, yet `overlay_product_simple` returns normally — numpy broadcasting
silently stretches the single product row over both background rows (the
result's row 1 is blended from the product's row 0) — and in particular it
does not fail with `DimensionMismatchError`. -/
theorem overlay_mismatch_cex :
    (exBg3.H == exProdRow.H) = false ∧
    (overlay_product_simple exBg3 exProdRow).isOk = true ∧
    errOf (overlay_product_simple exBg3 exProdRow) = none ∧
    okResultPx (overlay_product_simple exBg3 exProdRow) 1 0 0 =
      blendVal (exBg3.px 1 0 0) (exProdRow.px 0 0 0) (exProdRow.px 0 0 3) :=
  ⟨by decide, rfl, rfl, rfl⟩

/-- C3 amended: on mismatched dimensions the Alpha Compositor never raises a
`DimensionMismatchError` (no such class exists in the code): when the shapes
are not broadcast-compatible the numpy blend raises `ValueError`, and when the
product's differing dimension is 1 the call succeeds, silently stretching the
product by broadcasting. -/
theorem overlay_mismatch_behavior (bg p : Img) (hp : 4 ≤ p.C)
    (hmm : bg.H ≠ p.H ∨ bg.W ≠ p.W) :
    overlay_product_simple bg p ≠ .error PyErr.dimensionMismatchError ∧
    (bcastAssignOK bg.H bg.W p.H p.W = false →
      overlay_product_simple bg p = .error PyErr.valueError) ∧
    (bcastAssignOK bg.H bg.W p.H p.W = true →
      (overlay_product_simple bg p).isOk = true) := by
  have hno : ¬ p.C < 4 := by omega
  rw [overlay_eval bg p hno]
  refine ⟨?_, ?_, ?_⟩
  · intro h
    rcases hb : bcastAssignOK bg.H bg.W p.H p.W with _ | _ <;> simp [hb] at h
  · intro hb
    rw [if_neg (by simp [hb])]
  · intro hb
    rw [if_pos hb]
    rfl

/-- C3 witness: the amended behavior at the concrete non-broadcastable pair
`exBg3` (2×2) and `exProd33` (3×3). -/
theorem overlay_mismatch_behavior_wit :
    overlay_product_simple exBg3 exProd33 ≠ .error PyErr.dimensionMismatchError ∧
    (bcastAssignOK exBg3.H exBg3.W exProd33.H exProd33.W = false →
      overlay_product_simple exBg3 exProd33 = .error PyErr.valueError) ∧
    (bcastAssignOK exBg3.H exBg3.W exProd33.H exProd33.W = true →
      (overlay_product_simple exBg3 exProd33).isOk = true) :=
  overlay_mismatch_behavior exBg3 exProd33 (by decide) (Or.inl (by decide))

/-! ## Claim C4 -/

/-- C4 counterexample: for a video that cannot be opened, and for one that
opens but yields zero decodable frames, `split_video_to_frames` returns
normally with frame count 0 (no file written); it does not fail with
`IOError`. -/
theorem split_ioerror_cex :
    split_video_to_frames ⟨false, []⟩ = .ok ([], 0) ∧
    split_video_to_frames ⟨true, []⟩ = .ok ([], 0) ∧
    errOf (split_video_to_frames ⟨false, []⟩) = none ∧
    errOf (split_video_to_frames ⟨true, []⟩) = none :=
  ⟨rfl, rfl, rfl, rfl⟩

/-- C4 amended: for every input video that cannot be opened or that contains
zero decodable frames, the Frame Extractor returns normally with frame count 0
and writes no frame file (raising nothing). -/
theorem split_degenerate_returns_zero (v : Video)
    (h : v.opened = false ∨ v.frames = []) :
    split_video_to_frames v = .ok ([], 0) := by
  unfold split_video_to_frames
  rcases h with h | h
  · simp [h]
  · cases hv : v.opened <;> simp [h, splitGo]

/-- C4 witness: the amended behavior at a concrete unopenable video. -/
theorem split_degenerate_returns_zero_wit :
    split_video_to_frames ⟨false, [exFrame]⟩ = .ok ([], 0) :=
  split_degenerate_returns_zero ⟨false, [exFrame]⟩ (Or.inl rfl)

/-! ## Claim C6 -/

/-- C6: for every decodable video with `N` frames the Frame Extractor writes
exactly `N` files, named `frame_0000.jpg … frame_(N-1).jpg` — the name list is
exactly `frameName` over the contiguous index range `0..N-1`, so there are no
gaps — and returns `N` as the frame count. -/
theorem split_writes_all_frames (v : Video) (h : v.opened = true) :
    split_video_to_frames v =
      .ok (v.frames.enum.map (fun pr => (frameName pr.1, pr.2)), v.frames.length) ∧
    (v.frames.enum.map (fun pr => (frameName pr.1, pr.2))).map Prod.fst =
      (List.range v.frames.length).map frameName := by
  constructor
  · unfold split_video_to_frames
    rw [if_pos h, splitGo_eq]
    simp [List.enum]
  · rw [List.map_map]
    have heq : (Prod.fst ∘ fun pr : Nat × Img => (frameName pr.1, pr.2)) =
        frameName ∘ Prod.fst := rfl
    rw [heq, ← List.map_map, List.enum_map_fst]

/-- C6 witness: the extractor's output at a concrete one-frame video. -/
theorem split_writes_all_frames_wit :
    split_video_to_frames exVideo =
      .ok (exVideo.frames.enum.map (fun pr => (frameName pr.1, pr.2)),
           exVideo.frames.length) ∧
    (exVideo.frames.enum.map (fun pr => (frameName pr.1, pr.2))).map Prod.fst =
      (List.range exVideo.frames.length).map frameName :=
  split_writes_all_frames exVideo rfl

/-! ## Claim C7 -/

/-- C7 counterexample: at a concrete valid pair, the Alpha Compositor's result
has 4 channels, not the claimed 3 — the caller of `overlay_product_simple` has
to convert the result back to BGR itself before writing. -/
theorem overlay_channels_cex :
    okResultC (overlay_product_simple exFrame exProd1) = 4 ∧ ((4 : Nat) == 3) = false :=
  ⟨rfl, by decide⟩

/-- C7 amended: for a valid 3-channel background and 4-channel product, the
Alpha Compositor returns a new 4-channel (not 3-channel) frame whose alpha
channel is 255 everywhere — fully opaque, the product's own alpha appearing
only as the blend weight — while the caller's background array is left
unchanged; the 3-channel delivery frame is produced by the caller's subsequent
BGRA→BGR conversion. -/
theorem overlay_output_opaque (bg p : Img) (h3 : bg.C = 3) (hp : 4 ≤ p.C)
    (hb : bcastAssignOK bg.H bg.W p.H p.W = true) :
    ∃ r, overlay_product_simple bg p = .ok (r, bg) ∧ r.C = 4 ∧
      (∀ y x, r.px y x 3 = 255) ∧
      cvtColor_BGRA2BGR r = ⟨bg.H, bg.W, 3, r.px⟩ := by
  have hno : ¬ p.C < 4 := by omega
  refine ⟨blendImg (cvtColor_BGR2BGRA bg) p, ?_, rfl, ?_, rfl⟩
  · unfold overlay_product_simple
    rw [if_neg hno]
    simp [h3, cvtColor_BGR2BGRA, hb]
  · intro y x
    unfold blendImg cvtColor_BGR2BGRA
    norm_num

/-- C7 witness: the amended behavior at a concrete 1×1 pair. -/
theorem overlay_output_opaque_wit :
    ∃ r, overlay_product_simple exFrame exProd1 = .ok (r, exFrame) ∧ r.C = 4 ∧
      (∀ y x, r.px y x 3 = 255) ∧
      cvtColor_BGRA2BGR r = ⟨exFrame.H, exFrame.W, 3, r.px⟩ :=
  overlay_output_opaque exFrame exProd1 rfl (by decide) (by decide)

/-! ## Claim C8 -/

/-- C8 counterexample: an empty frames directory makes the Frame Assembler
fail with `IndexError` (from `sorted(os.listdir(...))[0]`), and a directory
whose lexically first frame file cannot be read as an image makes it fail with
`AttributeError` (from `first_frame.shape`): neither failure is an `IOError`. -/
theorem assembler_error_kind_cex :
    create_video_with_overlay [] (some exProd1) = .error PyErr.indexError ∧
    create_video_with_overlay [(frameName 0, none)] (some exProd1) =
      .error PyErr.attributeError ∧
    (PyErr.indexError == PyErr.ioError) = false ∧
    (PyErr.attributeError == PyErr.ioError) = false := by
  refine ⟨?_, ?_, by decide, by decide⟩
  · simp [create_video_with_overlay, sortNames]
  · simp [create_video_with_overlay, sortNames, readDir]

/-- C8 amended: the Frame Assembler does fail on an empty directory and on an
unreadable first frame, but with `IndexError` (empty listing indexed at 0) and
`AttributeError` (`None.shape` after `cv2.imread` returns `None`)
respectively, not with `IOError`. -/
theorem assembler_failure_kinds (p : Img) (dir : List (Name × Option Img)) :
    (dir = [] → create_video_with_overlay dir (some p) = .error PyErr.indexError) ∧
    (∀ n0 rest, sortNames (dir.map Prod.fst) = n0 :: rest → readDir dir n0 = none →
      create_video_with_overlay dir (some p) = .error PyErr.attributeError) := by
  constructor
  · intro h
    subst h
    simp [create_video_with_overlay, sortNames]
  · intro n0 rest hs hr
    simp only [create_video_with_overlay, hs, hr]

/-- C8 witness: the amended behavior at the concrete empty directory. -/
theorem assembler_failure_kinds_wit :
    create_video_with_overlay [] (some exProd1) = .error PyErr.indexError :=
  (assembler_failure_kinds exProd1 []).1 rfl

/-! ## Claim C9 -/

/-- C9 counterexample: when the input is readable but `write_videofile` fails,
`convert_to_h264` propagates the error while one clip reader is still open —
the acquired decoder resources are not released before the error reaches the
caller. -/
theorem transcode_leak_cex :
    (convert_to_h264 ⟨true, false⟩).2 = 1 ∧
    (convert_to_h264 ⟨true, false⟩).1 = .error PyErr.ioError ∧
    ((1 : Nat) == 0) = false :=
  ⟨rfl, rfl, by decide⟩

/-- C9 amended: `convert_to_h264` leaves no clip reader open on success and
acquires none when the input is unreadable, but on a write failure the reader
acquired by `VideoFileClip` stays open while the error propagates, because
`clip.close()` is only reached after a successful write (no scoped release). -/
theorem transcode_release_behavior (env : TranscodeEnv) :
    (convert_to_h264 env).2 = if env.readable && !env.writeOk then 1 else 0 := by
  unfold convert_to_h264
  cases hr : env.readable <;> cases hw : env.writeOk <;> simp [hr, hw]

/-! ## Claim C10 -/

/-- C10: for every background that already has 4 channels (and a product of
matching size), the Alpha Compositor blends in place: the caller's array after
the call is the very value returned (`.ok (r, r)` — the pair of returned value
and caller-visible final value coincide), its three color channels are
overwritten with the blended values, and its remaining channels are kept. -/
theorem overlay_inplace_four_channel (bg p : Img) (h4 : bg.C = 4) (hp : 4 ≤ p.C)
    (hH : p.H = bg.H) (hW : p.W = bg.W) :
    ∃ r, overlay_product_simple bg p = .ok (r, r) ∧
      r.H = bg.H ∧ r.W = bg.W ∧ r.C = 4 ∧
      (∀ y x c, y < bg.H → x < bg.W → c < 3 →
        r.px y x c = blendVal (bg.px y x c) (p.px y x c) (p.px y x 3)) ∧
      (∀ y x c, 3 ≤ c → r.px y x c = bg.px y x c) := by
  refine ⟨blendImg bg p, ?_, rfl, rfl, h4, ?_, ?_⟩
  · unfold overlay_product_simple
    have hno : ¬ p.C < 4 := by omega
    have hne : ¬ bg.C = 3 := by omega
    simp [hno, hne, bcastAssignOK, hH, hW]
  · intro y x c hy hx hc
    have hby : bidx p.H y = y := bidx_eq p.H y (hH ▸ hy)
    have hbx : bidx p.W x = x := bidx_eq p.W x (hW ▸ hx)
    unfold blendImg
    simp only [hc, if_pos, hby, hbx]
  · intro y x c hc
    have hnc : ¬ c < 3 := by omega
    unfold blendImg
    simp [hnc]

/-- C10 witness: the in-place behavior at a concrete 1×1 4-channel background. -/
theorem overlay_inplace_four_channel_wit :
    ∃ r, overlay_product_simple exBg4 exProd1 = .ok (r, r) ∧
      r.H = exBg4.H ∧ r.W = exBg4.W ∧ r.C = 4 ∧
      (∀ y x c, y < exBg4.H → x < exBg4.W → c < 3 →
        r.px y x c = blendVal (exBg4.px y x c) (exProd1.px y x c) (exProd1.px y x 3)) ∧
      (∀ y x c, 3 ≤ c → r.px y x c = exBg4.px y x c) :=
  overlay_inplace_four_channel exBg4 exProd1 rfl (by decide) rfl rfl

/-! ## Claim C5: order lemmas for the file-name convention -/

theorem lexLt_cons (a b : Char) (as bs : Name) :
    lexLt (a :: as) (b :: bs) =
      if a < b then true else if b < a then false else lexLt as bs := rfl

theorem lexLt_irrefl (a : Name) : lexLt a a = false := by
  induction a with
  | nil => rfl
  | cons c cs ih => rw [lexLt_cons, if_neg (lt_irrefl c), if_neg (lt_irrefl c)]; exact ih

theorem lexLt_asymm (a : Name) : ∀ b : Name, lexLt a b = true → lexLt b a = false := by
  induction a with
  | nil =>
    intro b h
    cases b with
    | nil => rfl
    | cons d ds => rfl
  | cons c cs ih =>
    intro b h
    cases b with
    | nil => exact absurd h (by simp [lexLt])
    | cons d ds =>
      rw [lexLt_cons] at h
      rw [lexLt_cons]
      by_cases h1 : c < d
      · rw [if_neg (lt_asymm h1), if_pos h1]
      · rw [if_neg h1] at h
        by_cases h2 : d < c
        · rw [if_pos h2] at h
          exact absurd h (by simp)
        · rw [if_neg h2] at h
          rw [if_neg h2, if_neg h1]
          exact ih ds h

theorem lexLt_trans (a : Name) :
    ∀ b c : Name, lexLt a b = true → lexLt b c = true → lexLt a c = true := by
  induction a with
  | nil =>
    intro b c h1 h2
    cases b with
    | nil => exact h2
    | cons d ds =>
      cases c with
      | nil => exact absurd h2 (by simp [lexLt])
      | cons e es => rfl
  | cons x xs ih =>
    intro b c h1 h2
    cases b with
    | nil => exact absurd h1 (by simp [lexLt])
    | cons d ds =>
      cases c with
      | nil => exact absurd h2 (by simp [lexLt])
      | cons e es =>
        rw [lexLt_cons] at h1 h2
        rw [lexLt_cons]
        by_cases hxd : x < d
        · by_cases hde : d < e
          · rw [if_pos (lt_trans hxd hde)]
          · rw [if_neg hde] at h2
            by_cases hed : e < d
            · rw [if_pos hed] at h2
              exact absurd h2 (by simp)
            · have hde2 : d = e := le_antisymm (le_of_not_lt hed) (le_of_not_lt hde)
              rw [if_pos (hde2 ▸ hxd)]
        · rw [if_neg hxd] at h1
          by_cases hdx : d < x
          · rw [if_pos hdx] at h1
            exact absurd h1 (by simp)
          · have hxd2 : x = d := le_antisymm (le_of_not_lt hdx) (le_of_not_lt hxd)
            rw [if_neg hdx] at h1
            subst hxd2
            by_cases hxe : x < e
            · rw [if_pos hxe]
            · rw [if_neg hxe] at h2 ⊢
              by_cases hex : e < x
              · rw [if_pos hex] at h2
                exact absurd h2 (by simp)
              · rw [if_neg hex] at h2 ⊢
                exact ih ds es h1 h2

theorem lexLt_connex (a : Name) : ∀ b : Name, a ≠ b → lexLt a b = true ∨ lexLt b a = true := by
  induction a with
  | nil =>
    intro b hne
    cases b with
    | nil => exact absurd rfl hne
    | cons d ds => exact Or.inl rfl
  | cons c cs ih =>
    intro b hne
    cases b with
    | nil => exact Or.inr rfl
    | cons d ds =>
      rcases lt_trichotomy c d with h | h | h
      · exact Or.inl (by rw [lexLt_cons, if_pos h])
      · subst h
        have hne2 : cs ≠ ds := by intro hh; exact hne (by rw [hh])
        rcases ih ds hne2 with h2 | h2
        · exact Or.inl (by rw [lexLt_cons, if_neg (lt_irrefl c), if_neg (lt_irrefl c)]; exact h2)
        · exact Or.inr (by rw [lexLt_cons, if_neg (lt_irrefl c), if_neg (lt_irrefl c)]; exact h2)
      · exact Or.inr (by rw [lexLt_cons, if_pos h])

theorem lexLe_total (a b : Name) : (lexLe a b || lexLe b a) = true := by
  unfold lexLe
  cases hba : lexLt b a with
  | false => simp
  | true => simp [lexLt_asymm b a hba]

theorem lexLe_trans (a b c : Name) :
    lexLe a b = true → lexLe b c = true → lexLe a c = true := by
  unfold lexLe
  intro h1 h2
  simp only [Bool.not_eq_true'] at h1 h2 ⊢
  by_contra hc
  rw [Bool.not_eq_false] at hc
  by_cases hab : a = b
  · subst hab
    rw [hc] at h2
    exact absurd h2 (by simp)
  · rcases lexLt_connex a b hab with h | h
    · have hca := lexLt_trans c a b hc h
      rw [hca] at h2
      exact absurd h2 (by simp)
    · rw [h] at h1
      exact absurd h1 (by simp)

theorem lexLt_imp_le (a b : Name) (h : lexLt a b = true) : lexLe a b = true := by
  unfold lexLe
  rw [lexLt_asymm a b h]
  rfl

theorem digits_one_digit (n : Nat) (h1 : 0 < n) (h2 : n < 10) : Nat.digits 10 n = [n] := by
  rw [Nat.digits_def' (by norm_num : (1:ℕ) < 10) h1]
  rw [Nat.div_eq_of_lt h2, Nat.digits_zero, Nat.mod_eq_of_lt h2]

theorem digits_le9999 (n : Nat) (h1 : 1000 ≤ n) (h2 : n ≤ 9999) :
    Nat.digits 10 n = [n % 10, n / 10 % 10, n / 100 % 10, n / 1000] := by
  have t : (1:ℕ) < 10 := by norm_num
  rw [Nat.digits_def' t (by omega)]
  rw [Nat.digits_def' t (by omega : 0 < n / 10)]
  rw [Nat.digits_def' t (by omega : 0 < n / 10 / 10)]
  rw [digits_one_digit (n / 10 / 10 / 10) (by omega) (by omega)]
  have e2 : n / 10 / 10 / 10 = n / 1000 := by omega
  have e1 : n / 10 / 10 = n / 100 := by omega
  rw [e2]
  rw [e1]

theorem digits_le999 (n : Nat) (h1 : 100 ≤ n) (h2 : n ≤ 999) :
    Nat.digits 10 n = [n % 10, n / 10 % 10, n / 100] := by
  have t : (1:ℕ) < 10 := by norm_num
  rw [Nat.digits_def' t (by omega)]
  rw [Nat.digits_def' t (by omega : 0 < n / 10)]
  rw [digits_one_digit (n / 10 / 10) (by omega) (by omega)]
  have e1 : n / 10 / 10 = n / 100 := by omega
  rw [e1]

theorem digits_le99 (n : Nat) (h1 : 10 ≤ n) (h2 : n ≤ 99) :
    Nat.digits 10 n = [n % 10, n / 10] := by
  have t : (1:ℕ) < 10 := by norm_num
  rw [Nat.digits_def' t (by omega)]
  rw [digits_one_digit (n / 10) (by omega) (by omega)]

theorem fmt04_eq (n : Nat) (h : n ≤ 9999) :
    fmt04 n = [Nat.digitChar (n / 1000 % 10), Nat.digitChar (n / 100 % 10),
               Nat.digitChar (n / 10 % 10), Nat.digitChar (n % 10)] := by
  by_cases h0 : n = 0
  · subst h0
    simp [fmt04, decChars]
    decide
  by_cases h1 : n ≤ 9
  · have e0 : n / 1000 % 10 = 0 := by omega
    have e1 : n / 100 % 10 = 0 := by omega
    have e2 : n / 10 % 10 = 0 := by omega
    have e3 : n % 10 = n := by omega
    rw [e0, e1, e2, e3]
    simp [fmt04, decChars, digits_one_digit n (by omega) (by omega)]
    decide
  by_cases h2 : n ≤ 99
  · have e0 : n / 1000 % 10 = 0 := by omega
    have e1 : n / 100 % 10 = 0 := by omega
    have e2 : n / 10 % 10 = n / 10 := by omega
    rw [e0, e1, e2]
    simp [fmt04, decChars, digits_le99 n (by omega) (by omega)]
    decide
  by_cases h3 : n ≤ 999
  · have e0 : n / 1000 % 10 = 0 := by omega
    have e1 : n / 100 % 10 = n / 100 := by omega
    rw [e0, e1]
    simp [fmt04, decChars, digits_le999 n (by omega) (by omega)]
    decide
  · have e0 : n / 1000 % 10 = n / 1000 := by omega
    rw [e0]
    simp [fmt04, decChars, digits_le9999 n (by omega) (by omega)]

theorem digitChar_mono : ∀ d, d < 10 → ∀ e, e < 10 → d < e →
    Nat.digitChar d < Nat.digitChar e := by decide

theorem lexLt_append_same (a : List Char) (x y : Name) :
    lexLt (a ++ x) (a ++ y) = lexLt x y := by
  induction a with
  | nil => rfl
  | cons c cs ih =>
    rw [List.cons_append, List.cons_append, lexLt_cons,
      if_neg (lt_irrefl c), if_neg (lt_irrefl c)]
    exact ih

theorem frameName_lt (i j : Nat) (hij : i < j) (hj : j ≤ 9999) :
    lexLt (frameName i) (frameName j) = true := by
  unfold frameName
  rw [List.append_assoc, List.append_assoc, lexLt_append_same]
  rw [fmt04_eq i (by omega), fmt04_eq j hj]
  have hd : i / 1000 % 10 < j / 1000 % 10 ∨
      (i / 1000 % 10 = j / 1000 % 10 ∧ (i / 100 % 10 < j / 100 % 10 ∨
        (i / 100 % 10 = j / 100 % 10 ∧ (i / 10 % 10 < j / 10 % 10 ∨
          (i / 10 % 10 = j / 10 % 10 ∧ i % 10 < j % 10))))) := by
    have a1 : i / 100 / 10 = i / 1000 := by
      rw [Nat.div_div_eq_div_mul]
    have a2 : i / 10 / 10 = i / 100 := by
      rw [Nat.div_div_eq_div_mul]
    have a3 : i / 1000 / 10 = i / 10000 := by
      rw [Nat.div_div_eq_div_mul]
    have b1 : j / 100 / 10 = j / 1000 := by
      rw [Nat.div_div_eq_div_mul]
    have b2 : j / 10 / 10 = j / 100 := by
      rw [Nat.div_div_eq_div_mul]
    have b3 : j / 1000 / 10 = j / 10000 := by
      rw [Nat.div_div_eq_div_mul]
    omega
  simp only [List.cons_append, lexLt_cons]
  rcases hd with h3 | ⟨e3, hd⟩
  · rw [if_pos (digitChar_mono _ (by omega) _ (by omega) h3)]
  · rw [e3, if_neg (lt_irrefl _), if_neg (lt_irrefl _)]
    rcases hd with h2 | ⟨e2, hd⟩
    · rw [if_pos (digitChar_mono _ (by omega) _ (by omega) h2)]
    · rw [e2, if_neg (lt_irrefl _), if_neg (lt_irrefl _)]
      rcases hd with h1 | ⟨e1, h0⟩
      · rw [if_pos (digitChar_mono _ (by omega) _ (by omega) h1)]
      · rw [e1, if_neg (lt_irrefl _), if_neg (lt_irrefl _)]
        rw [if_pos (digitChar_mono _ (by omega) _ (by omega) h0)]

theorem frameName_le (i j : Nat) (hij : i ≤ j) (hj : j ≤ 9999) :
    lexLe (frameName i) (frameName j) = true := by
  by_cases h : i = j
  · subst h
    unfold lexLe
    rw [lexLt_irrefl]
    rfl
  · exact lexLt_imp_le _ _ (frameName_lt i j (by omega) hj)

theorem pairwise_frameNames (N : Nat) (h : N ≤ 10000) :
    ((List.range N).map frameName).Pairwise (fun a b => lexLe a b = true) := by
  rw [List.pairwise_map]
  refine (List.pairwise_lt_range N).imp_of_mem ?_
  intro a b ha hb hab
  exact lexLt_imp_le _ _
    (frameName_lt a b hab (by have := List.mem_range.mp hb; omega))

theorem sortNames_extracted (N : Nat) (h : N ≤ 10000) :
    sortNames ((List.range N).map frameName) = (List.range N).map frameName := by
  unfold sortNames
  exact List.mergeSort_of_sorted (pairwise_frameNames N h)

theorem frameName_10000 : frameName 10000 = "frame_10000.jpg".data := by
  have hd : Nat.digits 10 10000 = [0, 0, 0, 0, 1] := by norm_num
  simp [frameName, fmt04, decChars, hd]
  decide

theorem frameName_1001 : frameName 1001 = "frame_1001.jpg".data := by
  have hd : Nat.digits 10 1001 = [1, 0, 0, 1] := by norm_num
  simp [frameName, fmt04, decChars, hd]
  decide

/-- C5 counterexample: with 10001 extracted frames the zero-padding is no
longer fixed-width (`frame_10000.jpg` has five digits), and Python's `sorted`
places `frame_10000.jpg` before `frame_1001.jpg`; the lexically sorted listing
the assembler iterates is no longer the numeric index order, so the round-trip
ordering claim fails for N = 10001. -/
theorem frame_order_cex :
    (sortNames ((List.range 10001).map frameName)
      == (List.range 10001).map frameName) = false := by
  rw [beq_eq_false_iff_ne]
  intro h
  have hs : (sortNames ((List.range 10001).map frameName)).Pairwise
      (fun a b => lexLe a b = true) :=
    List.sorted_mergeSort lexLe_trans lexLe_total ((List.range 10001).map frameName)
  rw [h] at hs
  rw [List.pairwise_iff_getElem] at hs
  have h2 := hs 1001 10000 (by simp) (by simp) (by omega)
  simp only [List.getElem_map, List.getElem_range] at h2
  rw [frameName_1001, frameName_10000] at h2
  unfold lexLe at h2
  rw [show lexLt "frame_10000.jpg".data "frame_1001.jpg".data = true by decide] at h2
  exact absurd h2 (by decide)

theorem isFrameFile_frameName (i : Nat) : isFrameFile (frameName i) = true := by
  unfold isFrameFile frameName
  have hsuf : ".jpg".data <:+ "frame_".data ++ fmt04 i ++ ".jpg".data :=
    List.suffix_append ("frame_".data ++ fmt04 i) ".jpg".data
  rw [Bool.or_eq_true, List.isSuffixOf_iff_suffix]
  exact Or.inl hsuf

theorem frameName_ne (i s : Nat) (hi : i ≤ 9999) (hs : s ≤ 9999) (hne : i ≠ s) :
    frameName i ≠ frameName s := by
  intro he
  rcases Nat.lt_or_ge i s with hlt | hge
  · have hl := frameName_lt i s hlt hs
    rw [he, lexLt_irrefl] at hl
    exact absurd hl (by simp)
  · have hlt2 : s < i := by omega
    have hl := frameName_lt s i hlt2 hi
    rw [he, lexLt_irrefl] at hl
    exact absurd hl (by simp)

theorem lookup_extractedDir (files : Nat → Img) (N : Nat) (hN : N ≤ 10000)
    (i : Nat) (hi : i < N) :
    readDir (extractedDir files N) (frameName i) = some (files i) := by
  unfold readDir extractedDir
  rw [List.range_eq_range']
  have main : ∀ n s, s + n ≤ N → s ≤ i → i < s + n →
      ((List.range' s n).map (fun j => (frameName j, some (files j)))).lookup (frameName i)
        = some (some (files i)) := by
    intro n
    induction n with
    | zero => intro s h1 h2 h3; omega
    | succ m ih =>
      intro s h1 h2 h3
      rw [List.range'_succ, List.map_cons]
      by_cases his : i = s
      · subst his
        simp [List.lookup]
      · have hne : (frameName i == frameName s) = false :=
          beq_eq_false_iff_ne.mpr (frameName_ne i s (by omega) (by omega) his)
        simp only [List.lookup, hne]
        exact ih (s + 1) (by omega) (by omega) (by omega)
  rw [main N 0 (by omega) (by omega) (by omega)]

theorem overlay_extracted_frame (files : Nat → Img) (p : Img) (H W N : Nat)
    (hf : ∀ i, i < N → (files i).H = H ∧ (files i).W = W ∧ (files i).C = 3)
    (hp4 : p.C = 4) (hpH : p.H = H) (hpW : p.W = W)
    (s : Nat) (hs : s < N) :
    overlay_product_simple (files s) p
      = .ok (blendImg (cvtColor_BGR2BGRA (files s)) p, files s) := by
  have hc3 : (files s).C = 3 := (hf s hs).2.2
  rw [overlay_eval (files s) p (by omega)]
  have hb : bcastAssignOK (files s).H (files s).W p.H p.W = true := by
    rw [(hf s hs).1, (hf s hs).2.1, hpH, hpW]
    simp [bcastAssignOK]
  rw [if_pos hb, if_pos hc3, if_pos hc3]

theorem overlayLoop_extracted (files : Nat → Img) (p : Img) (H W N : Nat)
    (hN : N ≤ 10000)
    (hf : ∀ i, i < N → (files i).H = H ∧ (files i).W = W ∧ (files i).C = 3)
    (hp4 : p.C = 4) (hpH : p.H = H) (hpW : p.W = W) :
    ∀ n s acc, s + n ≤ N →
      overlayLoop (extractedDir files N) p H W ((List.range' s n).map frameName) acc
        = .ok (acc ++ (List.range' s n).map (fun i => compositeBGR (files i) p)) := by
  intro n
  induction n with
  | zero =>
    intro s acc h
    simp [overlayLoop]
  | succ m ih =>
    intro s acc h
    rw [List.range'_succ, List.map_cons, List.map_cons]
    simp only [overlayLoop]
    rw [isFrameFile_frameName]
    rw [lookup_extractedDir files N hN s (by omega)]
    have hov := overlay_extracted_frame files p H W N hf hp4 hpH hpW s (by omega)
    have hres4 : (blendImg (cvtColor_BGR2BGRA (files s)) p).C = 4 := rfl
    have hcomp : cvtColor_BGRA2BGR (blendImg (cvtColor_BGR2BGRA (files s)) p)
        = compositeBGR (files s) p := rfl
    simp only [if_true, hov, hres4, hcomp, if_pos]
    have hw : writerWrite H W acc (compositeBGR (files s) p)
        = acc ++ [compositeBGR (files s) p] := by
      unfold writerWrite
      rw [if_pos]
      refine ⟨?_, ?_, rfl⟩
      · exact (hf s (by omega)).1
      · exact (hf s (by omega)).2.1
    rw [hw]
    rw [ih (s + 1) (acc ++ [compositeBGR (files s) p]) (by omega)]
    rw [List.append_assoc]
    rfl

theorem extractedDir_names (files : Nat → Img) (N : Nat) :
    (extractedDir files N).map Prod.fst = (List.range N).map frameName := by
  unfold extractedDir
  rw [List.map_map]
  rfl

/-- C5 amended: for every extracted sequence of `N` frames with `1 ≤ N ≤
10000` (so that every name is genuinely fixed-width zero-padded and lexical
order coincides with numeric order), compositing and assembling produces
exactly `N` output frames, and the frame at index `i` is the composited input
frame at index `i`. -/
theorem assemble_preserves_order (files : Nat → Img) (p : Img) (N H W : Nat)
    (hN1 : 1 ≤ N) (hN2 : N ≤ 10000)
    (hf : ∀ i, i < N → (files i).H = H ∧ (files i).W = W ∧ (files i).C = 3)
    (hp4 : p.C = 4) (hpH : p.H = H) (hpW : p.W = W) :
    create_video_with_overlay (extractedDir files N) (some p)
      = .ok ((List.range N).map (fun i => compositeBGR (files i) p)) ∧
    ((List.range N).map (fun i => compositeBGR (files i) p)).length = N ∧
    ∀ i, i < N →
      ((List.range N).map (fun j => compositeBGR (files j) p)).get? i
        = some (compositeBGR (files i) p) := by
  refine ⟨?_, by simp, ?_⟩
  · unfold create_video_with_overlay
    rw [extractedDir_names, sortNames_extracted N hN2]
    cases N with
    | zero => omega
    | succ m =>
      rw [List.range_eq_range']
      rw [List.range'_succ, List.map_cons]
      have h0 := lookup_extractedDir files (m + 1) hN2 0 (by omega)
      simp only [h0]
      have hH0 : (files 0).H = H := (hf 0 (by omega)).1
      have hW0 : (files 0).W = W := (hf 0 (by omega)).2.1
      rw [hH0, hW0]
      have hloop := overlayLoop_extracted files p H W (m + 1) hN2 hf hp4 hpH hpW
        (m + 1) 0 [] (by omega)
      rw [List.range'_succ, List.map_cons] at hloop
      rw [hloop]
      rw [List.nil_append]
  · intro i hi
    rw [List.get?_map]
    rw [List.get?_range hi]
    rfl

/-- C5 witness: the amended round-trip at a concrete one-frame directory. -/
theorem assemble_preserves_order_wit :
    create_video_with_overlay (extractedDir (fun _ => exFrame) 1) (some exProd1)
      = .ok ((List.range 1).map (fun i => compositeBGR ((fun _ => exFrame) i) exProd1)) ∧
    ((List.range 1).map (fun i => compositeBGR ((fun _ => exFrame) i) exProd1)).length = 1 ∧
    ∀ i, i < 1 →
      ((List.range 1).map (fun j => compositeBGR ((fun _ => exFrame) j) exProd1)).get? i
        = some (compositeBGR ((fun _ => exFrame) i) exProd1) :=
  assemble_preserves_order (fun _ => exFrame) exProd1 1 1 1 (by decide) (by decide)
    (by intro i hi; exact ⟨rfl, rfl, rfl⟩) rfl rfl rfl
